import Mathlib

set_option maxHeartbeats 1000000

/-! Shallow embedding of the thor transaction-execution core
    (runtime/runtime.go: ExecuteTransaction, commonTo) and of the
    receipt JSON formatter (api/utils/types: ConvertReceipt).
    Machine integers are Nat with explicit wraparound modulo 2^64 at the
    spots where Go uint64 arithmetic can wrap; big.Int quantities are
    plain Nat. External collaborators (the state store checkpointing, the
    energy native contract, the byte-code interpreter) are modelled at
    their interface boundary. -/

abbrev Address : Type := Nat

abbrev Hash : Type := Nat

abbrev Byte : Type := Fin 256

def emptyAddress : Address := 0

def U64 : Nat := 2 ^ 64

/-- Go uint64 subtraction `a - b` with wraparound modulo 2^64. -/
def wsub (a b : Nat) : Nat := (a % U64 + (U64 - b % U64)) % U64

/-- Go uint64 addition `a + b` with wraparound modulo 2^64. -/
def wadd (a b : Nat) : Nat := (a + b) % U64

/-- Clause of a transaction: optional recipient, value, payload
    (tx.Clause, accessed through To, Value, Data). -/
structure Clause where
  «to» : Option Address
  value : Nat
  data : List Byte
deriving DecidableEq

/-- Log emitted by the interpreter (vm.Log, cast 1:1 to tx.Log in
    ExecuteTransaction, so one type models both). -/
structure Log where
  address : Address
  topics : List Hash
  data : List Byte
deriving DecidableEq

/-- Result of one interpreter call (vm.Output). vmErr is the optional
    execution error. -/
structure VMOutput where
  leftOverGas : Nat
  refundGas : Nat
  logs : List Log
  vmErr : Option Unit
deriving DecidableEq

/-- Per-clause output of a receipt (tx.Output). -/
structure TxOutput where
  logs : List Log
deriving DecidableEq

/-- Receipt produced by ExecuteTransaction (tx.Receipt). outputs = none
    models a nil Go slice; a none entry models a nil pointer. -/
structure Receipt where
  gasUsed : Nat
  gasPayer : Address
  reverted : Bool
  outputs : Option (List (Option TxOutput))
deriving DecidableEq

/-- Modelled from the spec: the transaction accessors Signer, IntrinsicGas,
    Gas, GasPrice, Clauses, ID live in the external tx package; signer and
    intrinsicGas are none when signature recovery respectively the
    intrinsic-gas computation fails. -/
structure Transaction where
  signer : Option Address
  intrinsicGas : Option Nat
  gas : Nat
  gasPrice : Nat
  clauses : List Clause
  id : Hash
deriving DecidableEq

/-- World state: energy balances of the energy native contract plus a
    generic key-value storage component written by interpreted code. -/
structure WorldState where
  energy : List (Address × Nat)
  storage : List (Nat × Nat)
deriving DecidableEq

/-- Runtime environment. interp models rt.execute for one clause
    (index, clause, gas, origin, gasPrice, txID, state); pickPayer models
    the fee-delegation choice inside the energy contract. -/
structure Runtime where
  blockTime : Nat
  interp : Nat → Clause → Nat → Address → Nat → Hash → WorldState → VMOutput × WorldState
  pickPayer : WorldState → Address → Address → Address

def lookupBal : List (Address × Nat) → Address → Nat
  | [], _ => 0
  | (k, v) :: rest, a => if k = a then v else lookupBal rest a

def setBal : List (Address × Nat) → Address → Nat → List (Address × Nat)
  | [], a, n => [(a, n)]
  | (k, v) :: rest, a, n => if k = a then (a, n) :: rest else (k, v) :: setBal rest a n

/-- Modelled from the spec: cs.Energy.GetBalance, a balance read in the
    energy native contract (internals not part of this repository slice). -/
def Energy.getBalance (st : WorldState) (blockTime : Nat) (a : Address) : Nat :=
  lookupBal st.energy a

/-- Modelled from the spec: cs.Energy.SetBalance, a balance write in the
    energy native contract. -/
def Energy.setBalance (st : WorldState) (blockTime : Nat) (a : Address) (n : Nat) : WorldState :=
  { st with energy := setBal st.energy a n }

/-- Modelled from the spec: cs.Energy.Consume picks the payer (origin or a
    sponsor chosen from the recipient hint, abstracted by pick), debits
    exactly amount from that payer and reports it, or fails with no state
    change when the balance is insufficient. -/
def Energy.consume (pick : WorldState → Address → Address → Address) (st : WorldState)
    (blockTime : Nat) (origin recipientHint : Address) (amount : Nat) :
    Option (Address × WorldState) :=
  let payer := pick st origin recipientHint
  let bal := Energy.getBalance st blockTime payer
  if amount ≤ bal then
    some (payer, Energy.setBalance st blockTime payer (bal - amount))
  else
    none

/-- Modelled from the spec: state.NewCheckpoint as a snapshot of the world
    state; RevertTo restores exactly that snapshot. -/
def newCheckpoint (st : WorldState) : WorldState := st

/-- Loop body of commonTo over clauses[1:]: early return of the empty
    address on a missing or differing recipient. -/
def commonToLoop (firstTo : Address) : List Clause → Address
  | [] => firstTo
  | c :: rest =>
    match c.«to» with
    | none => emptyAddress
    | some t => if t ≠ firstTo then emptyAddress else commonToLoop firstTo rest

/-- Translation of commonTo (runtime.go): the shared To address of all
    clauses, or the empty address. -/
def commonTo (clauses : List Clause) : Address :=
  match clauses with
  | [] => emptyAddress
  | first :: rest =>
    match first.«to» with
    | none => emptyAddress
    | some firstTo => commonToLoop firstTo rest

/-- Per-clause gas/refund update from the loop of ExecuteTransaction:
    gasUsed := leftOverGas - output.LeftOverGas, refund capped at half the
    used gas, new leftover := output.LeftOverGas + refund (uint64 ops). -/
def applyRefund (leftOverBefore reportedLeftOver refundGas : Nat) : Nat :=
  wadd reportedLeftOver (min refundGas (wsub leftOverBefore reportedLeftOver / 2))

/-- Result of the clause loop of ExecuteTransaction: receipt outputs,
    raw vm outputs, leftover gas, state, and the index of the failing
    clause when one reported an execution error. -/
structure LoopRes where
  outs : List (Option TxOutput)
  vmOuts : List (Option VMOutput)
  leftOverGas : Nat
  state : WorldState
  failedAt : Option Nat
deriving DecidableEq

/-- Clause loop of ExecuteTransaction: run each clause in order; on a vm
    error revert to the checkpoint and stop (later vm outputs stay nil);
    otherwise record the clause output built from its logs. -/
def execLoop (rt : Runtime) (origin : Address) (gasPrice : Nat) (txid : Hash)
    (checkpoint : WorldState) : Nat → List Clause → Nat → WorldState → LoopRes
  | _, [], leftOverGas, st => ⟨[], [], leftOverGas, st, none⟩
  | i, c :: rest, leftOverGas, st =>
    let r := rt.interp i c leftOverGas origin gasPrice txid st
    let leftOverGas1 := applyRefund leftOverGas r.1.leftOverGas r.1.refundGas
    if r.1.vmErr.isSome then
      ⟨[], some r.1 :: List.replicate rest.length none, leftOverGas1, checkpoint, some i⟩
    else
      let tail := execLoop rt origin gasPrice txid checkpoint (i + 1) rest leftOverGas1 r.2
      ⟨some ⟨r.1.logs⟩ :: tail.outs, some r.1 :: tail.vmOuts,
        tail.leftOverGas, tail.state, tail.failedAt⟩

/-- Error outcomes of the prechecks of ExecuteTransaction, one per distinct
    error site in the source. -/
inductive ExecError where
  | invalidSignature
  | malformedTransaction
  | insufficientGas
  | insufficientEnergy
deriving DecidableEq

/-- Translation of ExecuteTransaction (runtime.go): prechecks, energy
    pre-debit, checkpoint, clause loop, receipt assembly, energy
    settlement. The state is threaded explicitly (Go mutates in place); the
    gasPayer and reverted receipt fields keep their Go zero values because
    the source never assigns them. -/
def ExecuteTransaction (rt : Runtime) (st : WorldState) (tx : Transaction) :
    Except ExecError (Receipt × List (Option VMOutput)) × WorldState :=
  match tx.signer with
  | none => (.error .invalidSignature, st)
  | some origin =>
    match tx.intrinsicGas with
    | none => (.error .malformedTransaction, st)
    | some intrinsicGas =>
      if intrinsicGas > tx.gas then (.error .insufficientGas, st)
      else
        match Energy.consume rt.pickPayer st rt.blockTime origin (commonTo tx.clauses)
            (tx.gas * tx.gasPrice) with
        | none => (.error .insufficientEnergy, st)
        | some (energyPayer, st1) =>
          let clauseCheckpoint := newCheckpoint st1
          let res := execLoop rt origin tx.gasPrice tx.id clauseCheckpoint 0 tx.clauses
            (tx.gas - intrinsicGas) st1
          let receipt : Receipt :=
            { gasUsed := wsub tx.gas res.leftOverGas
              gasPayer := emptyAddress
              reverted := false
              outputs := if res.failedAt.isSome then none else some res.outs }
          let payerBalance := Energy.getBalance res.state rt.blockTime energyPayer
          let st2 := Energy.setBalance res.state rt.blockTime energyPayer
            (payerBalance + res.leftOverGas * tx.gasPrice)
          (.ok (receipt, res.vmOuts), st2)

/-- Lower-case hex digit of a nibble, as in the external hexutil library:
    0-9 then a-f. -/
def hexDigit (n : Nat) : Char :=
  if n < 10 then Char.ofNat (48 + n) else Char.ofNat (87 + n)

/-- Hex character pairs of a byte string, high nibble first. -/
def encBody : List Byte → List Char
  | [] => []
  | b :: rest => hexDigit (b.val / 16) :: hexDigit (b.val % 16) :: encBody rest

/-- Model of hexutil.Encode from the external go-ethereum library: the
    0x-prefixed lower-case hex string of a byte slice. -/
def hexEncode (bs : List Byte) : List Char :=
  Char.ofNat 48 :: Char.ofNat 120 :: encBody bs

/-- JSON-facing log of a receipt (types.ReceiptLog); data is the hex
    string produced by hexutil.Encode. -/
structure ReceiptLog where
  address : Address
  topics : List Hash
  data : List Char
deriving DecidableEq

/-- JSON-facing per-clause output (types.Output). -/
structure JsonOutput where
  logs : List ReceiptLog
deriving DecidableEq

/-- JSON-facing receipt (types.Receipt). -/
structure JsonReceipt where
  gasUsed : Nat
  gasPayer : Address
  reverted : Bool
  outputs : List JsonOutput
deriving DecidableEq

/-- Conversion of one tx.Log into a types.ReceiptLog: address copied,
    topics copied element-wise in order, data hex-encoded. -/
def convLog (log : Log) : ReceiptLog :=
  { address := log.address, topics := log.topics, data := hexEncode log.data }

/-- Conversion of one tx.Output: its logs converted in order. -/
def convOutput (o : TxOutput) : JsonOutput :=
  ⟨o.logs.map convLog⟩

/-- Conversion of the output list of a receipt; dereferencing a nil output
    pointer in the Go loop is a fault, modelled as none. A nil outputs
    slice iterates zero times. -/
def convOutputs : List (Option TxOutput) → Option (List JsonOutput)
  | [] => some []
  | none :: _ => none
  | some o :: rest => (convOutputs rest).map (fun os => convOutput o :: os)

/-- Translation of ConvertReceipt (api types): copies gasUsed, gasPayer and
    reverted, and maps each output and each of its logs 1:1. -/
def ConvertReceipt (rece : Receipt) : Option JsonReceipt :=
  match convOutputs (rece.outputs.getD []) with
  | none => none
  | some outs =>
    some { gasUsed := rece.gasUsed, gasPayer := rece.gasPayer,
           reverted := rece.reverted, outputs := outs }

/-- Clause loop of one transaction as run by ExecuteTransaction: the whole
    loop starting from clause 0 with leftover gas = gas limit minus
    intrinsic gas, with the checkpoint taken at the post-debit state. -/
def txLoop (rt : Runtime) (tx : Transaction) (origin : Address) (ig : Nat)
    (st1 : WorldState) : LoopRes :=
  execLoop rt origin tx.gasPrice tx.id (newCheckpoint st1) 0 tx.clauses (tx.gas - ig) st1

/-- Interpreter invariant from the spec and the vm contract: the leftover
    gas reported by a call never exceeds the gas supplied to it. -/
def GasOK (rt : Runtime) : Prop :=
  ∀ i c g o q tid st, ((rt.interp i c g o q tid st).1).leftOverGas ≤ g

/-- Numeric value of a lower-case hex digit character. -/
def hexDigitVal (ch : Char) : Nat :=
  if 97 ≤ ch.toNat then ch.toNat - 87 else ch.toNat - 48

/-- Decoder of the hex character pairs produced by encBody, a left inverse
    used to show the encoding loses no information. -/
def decodeBody : List Char → List Nat
  | c1 :: c2 :: rest => (hexDigitVal c1 * 16 + hexDigitVal c2) :: decodeBody rest
  | _ => []

/-- Interpreter that always fails: reports one unit of gas used, no refund,
    no logs, and an execution error, after writing to storage. -/
def rtFail : Runtime :=
  { blockTime := 0
    interp := fun _ _ g _ _ _ s => (⟨g - 1, 0, [], some ()⟩, { s with storage := [(1, 1)] })
    pickPayer := fun _ o _ => o }

/-- Interpreter that always succeeds without using gas or touching state. -/
def rtOk : Runtime :=
  { blockTime := 0
    interp := fun _ _ g _ _ _ s => (⟨g, 0, [], none⟩, s)
    pickPayer := fun _ o _ => o }

/-- Initial state for the concrete runs: origin address 5 holds 1000 energy. -/
def st0Ex : WorldState := ⟨[(5, 1000)], []⟩

/-- Concrete transaction: origin 5, intrinsic gas 10, gas limit 30,
    gas price 2, one clause to address 7. -/
def txEx : Transaction :=
  { signer := some 5, intrinsicGas := some 10, gas := 30, gasPrice := 2
    clauses := [⟨some 7, 0, []⟩], id := 99 }

theorem wsub_eq {a b : Nat} (hb : b ≤ a) (ha : a < U64) : wsub a b = a - b := by
  have ha' : a % U64 = a := Nat.mod_eq_of_lt ha
  have hb' : b % U64 = b := Nat.mod_eq_of_lt (Nat.lt_of_le_of_lt hb ha)
  unfold wsub
  rw [ha', hb']
  have hbU : b ≤ U64 := Nat.le_of_lt (Nat.lt_of_le_of_lt hb ha)
  have h1 : a + (U64 - b) = a - b + U64 := by omega
  rw [h1, Nat.add_mod_right]
  exact Nat.mod_eq_of_lt (Nat.lt_of_le_of_lt (Nat.sub_le a b) ha)

theorem wadd_eq {a b : Nat} (h : a + b < U64) : wadd a b = a + b :=
  Nat.mod_eq_of_lt h

theorem applyRefund_eq {lob rep rg : Nat} (h1 : rep ≤ lob) (h2 : lob < U64) :
    applyRefund lob rep rg = rep + min rg ((lob - rep) / 2) := by
  unfold applyRefund
  rw [wsub_eq h1 h2]
  apply wadd_eq
  have hm : min rg ((lob - rep) / 2) ≤ (lob - rep) / 2 := min_le_right _ _
  have hd : (lob - rep) / 2 ≤ lob - rep := Nat.div_le_self _ _
  omega

theorem applyRefund_le {lob rep rg : Nat} (h1 : rep ≤ lob) (h2 : lob < U64) :
    applyRefund lob rep rg ≤ lob := by
  rw [applyRefund_eq h1 h2]
  have hm : min rg ((lob - rep) / 2) ≤ (lob - rep) / 2 := min_le_right _ _
  have hd : (lob - rep) / 2 ≤ lob - rep := Nat.div_le_self _ _
  omega

theorem execLoop_vmOuts_length (rt : Runtime) (o : Address) (q : Nat) (tid : Hash)
    (cp : WorldState) :
    ∀ (cs : List Clause) (i lo : Nat) (st : WorldState),
    (execLoop rt o q tid cp i cs lo st).vmOuts.length = cs.length := by
  intro cs
  induction cs with
  | nil => intro i lo st; rfl
  | cons c rest ih =>
    intro i lo st
    simp only [execLoop]
    by_cases hE : ((rt.interp i c lo o q tid st).1).vmErr.isSome
    · simp [hE]
    · simp [hE, ih]

theorem execLoop_left_le (rt : Runtime) (o : Address) (q : Nat) (tid : Hash)
    (cp : WorldState) (hg : GasOK rt) :
    ∀ (cs : List Clause) (i lo : Nat) (st : WorldState), lo < U64 →
    (execLoop rt o q tid cp i cs lo st).leftOverGas ≤ lo := by
  intro cs
  induction cs with
  | nil => intro i lo st _; exact Nat.le_refl _
  | cons c rest ih =>
    intro i lo st hlo
    have hrep : ((rt.interp i c lo o q tid st).1).leftOverGas ≤ lo := hg i c lo o q tid st
    have har : applyRefund lo ((rt.interp i c lo o q tid st).1).leftOverGas
        ((rt.interp i c lo o q tid st).1).refundGas ≤ lo := applyRefund_le hrep hlo
    simp only [execLoop]
    by_cases hE : ((rt.interp i c lo o q tid st).1).vmErr.isSome
    · simp [hE]; exact har
    · simp only [hE, Bool.false_eq_true, if_false]
      exact Nat.le_trans (ih (i + 1) _ _ (Nat.lt_of_le_of_lt har hlo)) har

theorem execLoop_fail_spec (rt : Runtime) (o : Address) (q : Nat) (tid : Hash)
    (cp : WorldState) :
    ∀ (cs : List Clause) (i lo : Nat) (st : WorldState) (k : Nat),
    (execLoop rt o q tid cp i cs lo st).failedAt = some k →
    (execLoop rt o q tid cp i cs lo st).state = cp ∧
    i ≤ k ∧ k - i < cs.length ∧
    (∀ j, j < k - i → ∃ vo, (execLoop rt o q tid cp i cs lo st).vmOuts.get? j = some (some vo)) ∧
    (∃ vo, (execLoop rt o q tid cp i cs lo st).vmOuts.get? (k - i) = some (some vo) ∧
      vo.vmErr.isSome) ∧
    (∀ j, k - i < j → j < cs.length →
      (execLoop rt o q tid cp i cs lo st).vmOuts.get? j = some none) := by
  intro cs
  induction cs with
  | nil =>
    intro i lo st k hk
    exact absurd hk (by simp [execLoop])
  | cons c rest ih =>
    intro i lo st k hk
    by_cases hE : ((rt.interp i c lo o q tid st).1).vmErr.isSome
    · have hki : k = i := by
        have : (execLoop rt o q tid cp i (c :: rest) lo st).failedAt = some i := by
          simp [execLoop, hE]
        rw [this] at hk
        exact (Option.some_inj.mp hk).symm
      subst hki
      have hcons : execLoop rt o q tid cp k (c :: rest) lo st =
          ⟨[], some ((rt.interp k c lo o q tid st).1) :: List.replicate rest.length none,
            applyRefund lo ((rt.interp k c lo o q tid st).1).leftOverGas
              ((rt.interp k c lo o q tid st).1).refundGas, cp, some k⟩ := by
        simp [execLoop, hE]
      rw [hcons]
      refine ⟨rfl, Nat.le_refl _, by simp, ?_, ?_, ?_⟩
      · intro j hj; omega
      · exact ⟨_, by simp, hE⟩
      · intro j hj hjl
        obtain ⟨j', rfl⟩ : ∃ j', j = j' + 1 := ⟨j - 1, by omega⟩
        rw [List.get?_cons_succ]
        have hj' : j' < rest.length := by simpa using hjl
        simp [List.get?_eq_get, hj']
    · have hk' : (execLoop rt o q tid cp (i + 1) rest
          (applyRefund lo ((rt.interp i c lo o q tid st).1).leftOverGas
            ((rt.interp i c lo o q tid st).1).refundGas)
          ((rt.interp i c lo o q tid st).2)).failedAt = some k := by
        have : (execLoop rt o q tid cp i (c :: rest) lo st).failedAt =
            (execLoop rt o q tid cp (i + 1) rest
              (applyRefund lo ((rt.interp i c lo o q tid st).1).leftOverGas
                ((rt.interp i c lo o q tid st).1).refundGas)
              ((rt.interp i c lo o q tid st).2)).failedAt := by
          simp [execLoop, hE]
        rw [← this]; exact hk
      obtain ⟨hst, hik, hlen, hpre, hat, hsuf⟩ := ih (i + 1) _ _ k hk'
      have hvm : (execLoop rt o q tid cp i (c :: rest) lo st).vmOuts =
          some ((rt.interp i c lo o q tid st).1) ::
            (execLoop rt o q tid cp (i + 1) rest
              (applyRefund lo ((rt.interp i c lo o q tid st).1).leftOverGas
                ((rt.interp i c lo o q tid st).1).refundGas)
              ((rt.interp i c lo o q tid st).2)).vmOuts := by
        simp [execLoop, hE]
      have hst2 : (execLoop rt o q tid cp i (c :: rest) lo st).state =
          (execLoop rt o q tid cp (i + 1) rest
            (applyRefund lo ((rt.interp i c lo o q tid st).1).leftOverGas
              ((rt.interp i c lo o q tid st).1).refundGas)
            ((rt.interp i c lo o q tid st).2)).state := by
        simp [execLoop, hE]
      have hki : i + 1 ≤ k := hik
      refine ⟨hst2.trans hst, by omega,
        by simpa using (by omega : k - i < rest.length + 1), ?_, ?_, ?_⟩
      · intro j hj
        rw [hvm]
        match j with
        | 0 => exact ⟨_, List.get?_cons_zero⟩
        | j' + 1 =>
          rw [List.get?_cons_succ]
          exact hpre j' (by omega)
      · have hs : k - i = (k - (i + 1)) + 1 := by omega
        rw [hvm, hs, List.get?_cons_succ]
        exact hat
      · intro j hj hjl
        rw [hvm]
        obtain ⟨j', rfl⟩ : ∃ j', j = j' + 1 := ⟨j - 1, by omega⟩
        rw [List.get?_cons_succ]
        exact hsuf j' (by omega) (by simpa using hjl)

theorem execLoop_success_spec (rt : Runtime) (o : Address) (q : Nat) (tid : Hash)
    (cp : WorldState) :
    ∀ (cs : List Clause) (i lo : Nat) (st : WorldState),
    (execLoop rt o q tid cp i cs lo st).failedAt = none →
    ∀ j, j < cs.length →
      ∃ vo, (execLoop rt o q tid cp i cs lo st).vmOuts.get? j = some (some vo) := by
  intro cs
  induction cs with
  | nil => intro i lo st _ j hj; exact absurd hj (by simp)
  | cons c rest ih =>
    intro i lo st hnone j hj
    by_cases hE : ((rt.interp i c lo o q tid st).1).vmErr.isSome
    · exact absurd hnone (by simp [execLoop, hE])
    · have hcons : (execLoop rt o q tid cp i (c :: rest) lo st).vmOuts =
          some ((rt.interp i c lo o q tid st).1) ::
            (execLoop rt o q tid cp (i + 1) rest
              (applyRefund lo ((rt.interp i c lo o q tid st).1).leftOverGas
                ((rt.interp i c lo o q tid st).1).refundGas)
              ((rt.interp i c lo o q tid st).2)).vmOuts := by
        simp [execLoop, hE]
      have hnone' : (execLoop rt o q tid cp (i + 1) rest
          (applyRefund lo ((rt.interp i c lo o q tid st).1).leftOverGas
            ((rt.interp i c lo o q tid st).1).refundGas)
          ((rt.interp i c lo o q tid st).2)).failedAt = none := by
        have : (execLoop rt o q tid cp i (c :: rest) lo st).failedAt =
            (execLoop rt o q tid cp (i + 1) rest
              (applyRefund lo ((rt.interp i c lo o q tid st).1).leftOverGas
                ((rt.interp i c lo o q tid st).1).refundGas)
              ((rt.interp i c lo o q tid st).2)).failedAt := by
          simp [execLoop, hE]
        rw [← this]; exact hnone
      rw [hcons]
      match j with
      | 0 => exact ⟨_, List.get?_cons_zero⟩
      | j' + 1 =>
        rw [List.get?_cons_succ]
        exact ih (i + 1) _ _ hnone' j' (by simpa using hj)

theorem lookupBal_setBal (a : Address) (n : Nat) :
    ∀ l : List (Address × Nat), lookupBal (setBal l a n) a = n := by
  intro l
  induction l with
  | nil => simp [setBal, lookupBal]
  | cons p rest ih =>
    by_cases hp : p.1 = a
    · simp [setBal, lookupBal, hp]
    · simp [setBal, lookupBal, hp, ih]

theorem getBalance_setBalance (st : WorldState) (bt : Nat) (a : Address) (n : Nat) :
    Energy.getBalance (Energy.setBalance st bt a n) bt a = n := by
  simp [Energy.getBalance, Energy.setBalance, lookupBal_setBal]

theorem execLoop_payer_bal (rt : Runtime) (o : Address) (q : Nat) (tid : Hash)
    (cp : WorldState) (bt : Nat) (payer : Address)
    (hp : ∀ i c g st, Energy.getBalance ((rt.interp i c g o q tid st).2) bt payer =
      Energy.getBalance st bt payer) :
    ∀ (cs : List Clause) (i lo : Nat) (st : WorldState),
    Energy.getBalance st bt payer = Energy.getBalance cp bt payer →
    Energy.getBalance (execLoop rt o q tid cp i cs lo st).state bt payer =
      Energy.getBalance cp bt payer := by
  intro cs
  induction cs with
  | nil => intro i lo st hst; simpa [execLoop] using hst
  | cons c rest ih =>
    intro i lo st hst
    by_cases hE : ((rt.interp i c lo o q tid st).1).vmErr.isSome
    · simp [execLoop, hE]
    · have hnext : Energy.getBalance ((rt.interp i c lo o q tid st).2) bt payer =
          Energy.getBalance cp bt payer := (hp i c lo st).trans hst
      have := ih (i + 1)
        (applyRefund lo ((rt.interp i c lo o q tid st).1).leftOverGas
          ((rt.interp i c lo o q tid st).1).refundGas)
        ((rt.interp i c lo o q tid st).2) hnext
      simpa [execLoop, hE] using this

theorem ExecuteTransaction_run (rt : Runtime) (st0 : WorldState) (tx : Transaction)
    (origin : Address) (ig : Nat) (payer : Address) (st1 : WorldState)
    (h1 : tx.signer = some origin) (h2 : tx.intrinsicGas = some ig) (h3 : ig ≤ tx.gas)
    (h4 : Energy.consume rt.pickPayer st0 rt.blockTime origin (commonTo tx.clauses)
      (tx.gas * tx.gasPrice) = some (payer, st1)) :
    ExecuteTransaction rt st0 tx =
      (.ok ({ gasUsed := wsub tx.gas (txLoop rt tx origin ig st1).leftOverGas
              gasPayer := emptyAddress
              reverted := false
              outputs := if (txLoop rt tx origin ig st1).failedAt.isSome then none
                         else some (txLoop rt tx origin ig st1).outs },
            (txLoop rt tx origin ig st1).vmOuts),
       Energy.setBalance (txLoop rt tx origin ig st1).state rt.blockTime payer
         (Energy.getBalance (txLoop rt tx origin ig st1).state rt.blockTime payer +
           (txLoop rt tx origin ig st1).leftOverGas * tx.gasPrice)) := by
  unfold ExecuteTransaction txLoop
  simp only [h1, h2, h4]
  rw [if_neg (Nat.not_lt.mpr h3)]

/-- C1: if executing clause k reports an execution error, ExecuteTransaction
    reverts the world state to the checkpoint taken before clause execution
    (the clause loop ends in exactly the checkpoint state, so every state
    write of clauses 0..k is discarded and only the unconditional energy
    settlement is applied on top of it), sets the per-clause receipt outputs
    to absent, and executes no clause after k. -/
theorem C1_atomic_rollback
    (rt : Runtime) (st0 : WorldState) (tx : Transaction)
    (origin : Address) (ig : Nat) (payer : Address) (st1 : WorldState) (k : Nat)
    (h1 : tx.signer = some origin) (h2 : tx.intrinsicGas = some ig) (h3 : ig ≤ tx.gas)
    (h4 : Energy.consume rt.pickPayer st0 rt.blockTime origin (commonTo tx.clauses)
      (tx.gas * tx.gasPrice) = some (payer, st1))
    (h5 : (txLoop rt tx origin ig st1).failedAt = some k) :
    (txLoop rt tx origin ig st1).state = newCheckpoint st1 ∧
    (∃ receipt,
      ExecuteTransaction rt st0 tx =
        (.ok (receipt, (txLoop rt tx origin ig st1).vmOuts),
         Energy.setBalance (newCheckpoint st1) rt.blockTime payer
           (Energy.getBalance (newCheckpoint st1) rt.blockTime payer +
             (txLoop rt tx origin ig st1).leftOverGas * tx.gasPrice)) ∧
      receipt.outputs = none) ∧
    (∀ j, k < j → j < tx.clauses.length →
      (txLoop rt tx origin ig st1).vmOuts.get? j = some none) := by
  obtain ⟨hst, _, _, _, _, hsuf⟩ := execLoop_fail_spec rt origin tx.gasPrice tx.id
    (newCheckpoint st1) tx.clauses 0 (tx.gas - ig) st1 k h5
  refine ⟨hst,
    ⟨{ gasUsed := wsub tx.gas (txLoop rt tx origin ig st1).leftOverGas
       gasPayer := emptyAddress
       reverted := false
       outputs := if (txLoop rt tx origin ig st1).failedAt.isSome then none
                  else some (txLoop rt tx origin ig st1).outs }, ?_, ?_⟩, ?_⟩
  · rw [ExecuteTransaction_run rt st0 tx origin ig payer st1 h1 h2 h3 h4]
    have hst' : (txLoop rt tx origin ig st1).state = newCheckpoint st1 := hst
    rw [hst']
  · simp [h5]
  · intro j hj hjl
    exact hsuf j (by omega) hjl

theorem C1_atomic_rollback_witness :
    (txLoop rtFail txEx 5 10 ⟨[(5, 940)], []⟩).state = newCheckpoint ⟨[(5, 940)], []⟩ ∧
    (∃ receipt,
      ExecuteTransaction rtFail st0Ex txEx =
        (.ok (receipt, (txLoop rtFail txEx 5 10 ⟨[(5, 940)], []⟩).vmOuts),
         Energy.setBalance (newCheckpoint ⟨[(5, 940)], []⟩) rtFail.blockTime 5
           (Energy.getBalance (newCheckpoint ⟨[(5, 940)], []⟩) rtFail.blockTime 5 +
             (txLoop rtFail txEx 5 10 ⟨[(5, 940)], []⟩).leftOverGas * txEx.gasPrice)) ∧
      receipt.outputs = none) ∧
    (∀ j, 0 < j → j < txEx.clauses.length →
      (txLoop rtFail txEx 5 10 ⟨[(5, 940)], []⟩).vmOuts.get? j = some none) :=
  C1_atomic_rollback rtFail st0Ex txEx 5 10 5 ⟨[(5, 940)], []⟩ 0 rfl rfl
    (by decide) (by decide) rfl

/-- C2 counter-evidence: on this concrete transaction the single clause
    reports an execution error (its raw output carries vmErr = some ()),
    yet the returned receipt has reverted = false, because the source never
    assigns the Reverted field. -/
theorem C2_reverted_flag_eval :
    ExecuteTransaction rtFail st0Ex txEx =
      (.ok ({ gasUsed := 11, gasPayer := 0, reverted := false, outputs := none },
            [some ⟨19, 0, [], some ()⟩]), ⟨[(5, 978)], []⟩) :=
  rfl

/-- C6 counter-evidence: on this concrete successful transaction the energy
    pre-debit reports address 5 as the payer, yet the returned receipt has
    gasPayer = 0 (the empty address), because the source never assigns the
    GasPayer field. -/
theorem C6_gas_payer_eval :
    Energy.consume rtOk.pickPayer st0Ex rtOk.blockTime 5 (commonTo txEx.clauses)
        (txEx.gas * txEx.gasPrice) = some (5, ⟨[(5, 940)], []⟩) ∧
    ExecuteTransaction rtOk st0Ex txEx =
      (.ok ({ gasUsed := 10, gasPayer := 0, reverted := false,
              outputs := some [some ⟨[]⟩] },
            [some ⟨20, 0, [], none⟩]), ⟨[(5, 980)], []⟩) ∧
    (5 : Address) ≠ emptyAddress :=
  ⟨rfl, rfl, by decide⟩

/-- C3: for every transaction that passes the pre-execution checks, the
    receipt satisfies GasUsed = gas limit - final leftover gas and
    0 ≤ GasUsed ≤ gas limit, given the interpreter invariant that leftover
    gas never exceeds the gas supplied to a call. -/
theorem C3_gas_conservation
    (rt : Runtime) (st0 : WorldState) (tx : Transaction)
    (origin : Address) (ig : Nat) (payer : Address) (st1 : WorldState)
    (hg : GasOK rt) (hU : tx.gas < U64)
    (h1 : tx.signer = some origin) (h2 : tx.intrinsicGas = some ig) (h3 : ig ≤ tx.gas)
    (h4 : Energy.consume rt.pickPayer st0 rt.blockTime origin (commonTo tx.clauses)
      (tx.gas * tx.gasPrice) = some (payer, st1)) :
    ∃ receipt stf,
      ExecuteTransaction rt st0 tx =
        (.ok (receipt, (txLoop rt tx origin ig st1).vmOuts), stf) ∧
      receipt.gasUsed = tx.gas - (txLoop rt tx origin ig st1).leftOverGas ∧
      receipt.gasUsed ≤ tx.gas := by
  have hlo : tx.gas - ig < U64 := Nat.lt_of_le_of_lt (Nat.sub_le _ _) hU
  have hfl : (txLoop rt tx origin ig st1).leftOverGas ≤ tx.gas - ig :=
    execLoop_left_le rt origin tx.gasPrice tx.id (newCheckpoint st1) hg
      tx.clauses 0 (tx.gas - ig) st1 hlo
  have hfl' : (txLoop rt tx origin ig st1).leftOverGas ≤ tx.gas :=
    Nat.le_trans hfl (Nat.sub_le _ _)
  have hws : wsub tx.gas (txLoop rt tx origin ig st1).leftOverGas =
      tx.gas - (txLoop rt tx origin ig st1).leftOverGas := wsub_eq hfl' hU
  refine ⟨{ gasUsed := wsub tx.gas (txLoop rt tx origin ig st1).leftOverGas
            gasPayer := emptyAddress
            reverted := false
            outputs := if (txLoop rt tx origin ig st1).failedAt.isSome then none
                       else some (txLoop rt tx origin ig st1).outs }, _,
    ExecuteTransaction_run rt st0 tx origin ig payer st1 h1 h2 h3 h4, ?_, ?_⟩
  · exact hws
  · show wsub tx.gas (txLoop rt tx origin ig st1).leftOverGas ≤ tx.gas
    rw [hws]
    exact Nat.sub_le _ _

theorem C3_gas_conservation_witness :
    ∃ receipt stf,
      ExecuteTransaction rtOk st0Ex txEx =
        (.ok (receipt, (txLoop rtOk txEx 5 10 ⟨[(5, 940)], []⟩).vmOuts), stf) ∧
      receipt.gasUsed = txEx.gas - (txLoop rtOk txEx 5 10 ⟨[(5, 940)], []⟩).leftOverGas ∧
      receipt.gasUsed ≤ txEx.gas :=
  C3_gas_conservation rtOk st0Ex txEx 5 10 5 ⟨[(5, 940)], []⟩
    (fun _ _ g _ _ _ _ => Nat.le_refl g) (by decide) rfl rfl (by decide) (by decide)

/-- C4: the pre-debit taken by the consume operation of the energy contract
    is exactly gasLimit * gasPrice, removed from the payer before any clause
    runs; the settlement, applied unconditionally to the same payer, credits
    exactly finalLeftoverGas * gasPrice; hence the net cost to the payer is
    GasUsed * gasPrice (clauses themselves assumed not to move the payer
    energy balance). -/
theorem C4_energy_conservation
    (rt : Runtime) (st0 : WorldState) (tx : Transaction)
    (origin : Address) (ig : Nat) (payer : Address) (st1 : WorldState)
    (hg : GasOK rt) (hU : tx.gas < U64)
    (hp : ∀ i c g st,
      Energy.getBalance ((rt.interp i c g origin tx.gasPrice tx.id st).2) rt.blockTime payer =
        Energy.getBalance st rt.blockTime payer)
    (h1 : tx.signer = some origin) (h2 : tx.intrinsicGas = some ig) (h3 : ig ≤ tx.gas)
    (h4 : Energy.consume rt.pickPayer st0 rt.blockTime origin (commonTo tx.clauses)
      (tx.gas * tx.gasPrice) = some (payer, st1)) :
    Energy.getBalance st1 rt.blockTime payer + tx.gas * tx.gasPrice =
      Energy.getBalance st0 rt.blockTime payer ∧
    ∃ receipt,
      ExecuteTransaction rt st0 tx =
        (.ok (receipt, (txLoop rt tx origin ig st1).vmOuts),
         Energy.setBalance (txLoop rt tx origin ig st1).state rt.blockTime payer
           (Energy.getBalance (txLoop rt tx origin ig st1).state rt.blockTime payer +
             (txLoop rt tx origin ig st1).leftOverGas * tx.gasPrice)) ∧
      Energy.getBalance
          (Energy.setBalance (txLoop rt tx origin ig st1).state rt.blockTime payer
            (Energy.getBalance (txLoop rt tx origin ig st1).state rt.blockTime payer +
              (txLoop rt tx origin ig st1).leftOverGas * tx.gasPrice))
          rt.blockTime payer
        + receipt.gasUsed * tx.gasPrice
        = Energy.getBalance st0 rt.blockTime payer := by
  have hcons := h4
  simp only [Energy.consume] at hcons
  by_cases hle : tx.gas * tx.gasPrice ≤
      Energy.getBalance st0 rt.blockTime (rt.pickPayer st0 origin (commonTo tx.clauses))
  · rw [if_pos hle] at hcons
    simp only [Option.some.injEq, Prod.mk.injEq] at hcons
    obtain ⟨hpay, hst1⟩ := hcons
    subst hpay
    subst hst1
    have hbal1 : Energy.getBalance
        (Energy.setBalance st0 rt.blockTime (rt.pickPayer st0 origin (commonTo tx.clauses))
          (Energy.getBalance st0 rt.blockTime (rt.pickPayer st0 origin (commonTo tx.clauses)) -
            tx.gas * tx.gasPrice))
        rt.blockTime (rt.pickPayer st0 origin (commonTo tx.clauses)) =
        Energy.getBalance st0 rt.blockTime (rt.pickPayer st0 origin (commonTo tx.clauses)) -
          tx.gas * tx.gasPrice := getBalance_setBalance _ _ _ _
    constructor
    · rw [hbal1]
      omega
    · set p := rt.pickPayer st0 origin (commonTo tx.clauses) with hpdef
      set stc := Energy.setBalance st0 rt.blockTime p
        (Energy.getBalance st0 rt.blockTime p - tx.gas * tx.gasPrice) with hstc
      have hloop : Energy.getBalance (txLoop rt tx origin ig stc).state rt.blockTime p =
          Energy.getBalance stc rt.blockTime p := by
        exact execLoop_payer_bal rt origin tx.gasPrice tx.id (newCheckpoint stc)
          rt.blockTime p hp tx.clauses 0 (tx.gas - ig) stc rfl
      have hlo : tx.gas - ig < U64 := Nat.lt_of_le_of_lt (Nat.sub_le _ _) hU
      have hfl' : (txLoop rt tx origin ig stc).leftOverGas ≤ tx.gas :=
        Nat.le_trans (execLoop_left_le rt origin tx.gasPrice tx.id (newCheckpoint stc) hg
          tx.clauses 0 (tx.gas - ig) stc hlo) (Nat.sub_le _ _)
      have hws : wsub tx.gas (txLoop rt tx origin ig stc).leftOverGas =
          tx.gas - (txLoop rt tx origin ig stc).leftOverGas := wsub_eq hfl' hU
      refine ⟨{ gasUsed := wsub tx.gas (txLoop rt tx origin ig stc).leftOverGas
                gasPayer := emptyAddress
                reverted := false
                outputs := if (txLoop rt tx origin ig stc).failedAt.isSome then none
                           else some (txLoop rt tx origin ig stc).outs },
        ExecuteTransaction_run rt st0 tx origin ig p stc h1 h2 h3 h4, ?_⟩
      show Energy.getBalance
          (Energy.setBalance (txLoop rt tx origin ig stc).state rt.blockTime p
            (Energy.getBalance (txLoop rt tx origin ig stc).state rt.blockTime p +
              (txLoop rt tx origin ig stc).leftOverGas * tx.gasPrice))
          rt.blockTime p
        + wsub tx.gas (txLoop rt tx origin ig stc).leftOverGas * tx.gasPrice
        = Energy.getBalance st0 rt.blockTime p
      rw [getBalance_setBalance, hloop, hbal1, hws, Nat.sub_mul]
      have hmul : (txLoop rt tx origin ig stc).leftOverGas * tx.gasPrice ≤
          tx.gas * tx.gasPrice := Nat.mul_le_mul_right tx.gasPrice hfl'
      omega
  · rw [if_neg hle] at hcons
    exact absurd hcons (by simp)

theorem C4_energy_conservation_witness :
    Energy.getBalance ⟨[(5, 940)], []⟩ rtOk.blockTime 5 + txEx.gas * txEx.gasPrice =
      Energy.getBalance st0Ex rtOk.blockTime 5 ∧
    ∃ receipt,
      ExecuteTransaction rtOk st0Ex txEx =
        (.ok (receipt, (txLoop rtOk txEx 5 10 ⟨[(5, 940)], []⟩).vmOuts),
         Energy.setBalance (txLoop rtOk txEx 5 10 ⟨[(5, 940)], []⟩).state rtOk.blockTime 5
           (Energy.getBalance (txLoop rtOk txEx 5 10 ⟨[(5, 940)], []⟩).state rtOk.blockTime 5 +
             (txLoop rtOk txEx 5 10 ⟨[(5, 940)], []⟩).leftOverGas * txEx.gasPrice)) ∧
      Energy.getBalance
          (Energy.setBalance (txLoop rtOk txEx 5 10 ⟨[(5, 940)], []⟩).state rtOk.blockTime 5
            (Energy.getBalance (txLoop rtOk txEx 5 10 ⟨[(5, 940)], []⟩).state rtOk.blockTime 5 +
              (txLoop rtOk txEx 5 10 ⟨[(5, 940)], []⟩).leftOverGas * txEx.gasPrice))
          rtOk.blockTime 5
        + receipt.gasUsed * txEx.gasPrice
        = Energy.getBalance st0Ex rtOk.blockTime 5 :=
  C4_energy_conservation rtOk st0Ex txEx 5 10 5 ⟨[(5, 940)], []⟩
    (fun _ _ g _ _ _ _ => Nat.le_refl g) (by decide) (fun _ _ _ _ => rfl)
    rfl rfl (by decide) (by decide)

/-- C5: for every clause, the refund added back to the leftover gas equals
    min(the refundGas proposed by the interpreter, floor(gasUsed / 2)) with
    gasUsed = leftover gas before the clause minus the reported leftover
    gas: applyRefund is exactly the per-clause update applied by the clause
    loop (whether or not the clause erred), and it adds exactly the capped
    refund. -/
theorem C5_refund_cap
    (rt : Runtime) (o : Address) (q : Nat) (tid : Hash) (cp st : WorldState)
    (i : Nat) (c : Clause) (lo : Nat)
    (hrep : ((rt.interp i c lo o q tid st).1).leftOverGas ≤ lo) (hU : lo < U64) :
    (execLoop rt o q tid cp i [c] lo st).leftOverGas =
      applyRefund lo ((rt.interp i c lo o q tid st).1).leftOverGas
        ((rt.interp i c lo o q tid st).1).refundGas ∧
    applyRefund lo ((rt.interp i c lo o q tid st).1).leftOverGas
        ((rt.interp i c lo o q tid st).1).refundGas =
      ((rt.interp i c lo o q tid st).1).leftOverGas +
        min ((rt.interp i c lo o q tid st).1).refundGas
          ((lo - ((rt.interp i c lo o q tid st).1).leftOverGas) / 2) := by
  refine ⟨?_, applyRefund_eq hrep hU⟩
  by_cases hE : ((rt.interp i c lo o q tid st).1).vmErr.isSome
  · simp [execLoop, hE]
  · simp [execLoop, hE]

theorem C5_refund_cap_witness :
    (execLoop rtOk 5 2 99 st0Ex 0 [⟨some 7, 0, []⟩] 20 st0Ex).leftOverGas =
      applyRefund 20 ((rtOk.interp 0 ⟨some 7, 0, []⟩ 20 5 2 99 st0Ex).1).leftOverGas
        ((rtOk.interp 0 ⟨some 7, 0, []⟩ 20 5 2 99 st0Ex).1).refundGas ∧
    applyRefund 20 ((rtOk.interp 0 ⟨some 7, 0, []⟩ 20 5 2 99 st0Ex).1).leftOverGas
        ((rtOk.interp 0 ⟨some 7, 0, []⟩ 20 5 2 99 st0Ex).1).refundGas =
      ((rtOk.interp 0 ⟨some 7, 0, []⟩ 20 5 2 99 st0Ex).1).leftOverGas +
        min ((rtOk.interp 0 ⟨some 7, 0, []⟩ 20 5 2 99 st0Ex).1).refundGas
          ((20 - ((rtOk.interp 0 ⟨some 7, 0, []⟩ 20 5 2 99 st0Ex).1).leftOverGas) / 2) :=
  C5_refund_cap rtOk 5 2 99 st0Ex st0Ex 0 ⟨some 7, 0, []⟩ 20 (by decide) (by decide)

theorem commonToLoop_all (a : Address) :
    ∀ cs : List Clause, (∀ c ∈ cs, c.«to» = some a) → commonToLoop a cs = a := by
  intro cs
  induction cs with
  | nil => intro _; rfl
  | cons d rest ih =>
    intro h
    have hd : d.«to» = some a := h d (List.mem_cons_self d rest)
    simp only [commonToLoop, hd]
    simp [ih fun c hc => h c (List.mem_cons_of_mem d hc)]

theorem commonToLoop_mismatch (a : Address) :
    ∀ (cs : List Clause) (c : Clause), c ∈ cs → c.«to» ≠ some a →
    commonToLoop a cs = emptyAddress := by
  intro cs
  induction cs with
  | nil => intro c hc _; exact absurd hc (List.not_mem_nil c)
  | cons d rest ih =>
    intro c hc hne
    rcases List.mem_cons.mp hc with hcd | hcr
    · subst hcd
      match hdt : c.«to» with
      | none => simp [commonToLoop, hdt]
      | some t =>
        have ht : t ≠ a := fun he => hne (by rw [hdt, he])
        simp [commonToLoop, hdt, ht]
    · match hdt : d.«to» with
      | none => simp [commonToLoop, hdt]
      | some t =>
        by_cases ht : t = a
        · simp only [commonToLoop, hdt, ht]
          simp [ih c hcr hne]
        · simp [commonToLoop, hdt, ht]

/-- C7: commonTo returns the shared recipient when every clause has the same
    present recipient, and the empty-address sentinel when the clause list
    is empty, when some clause has no recipient, or when two clauses have
    different recipients. -/
theorem C7_common_recipient (cs : List Clause) :
    (cs = [] → commonTo cs = emptyAddress) ∧
    (∀ a, cs ≠ [] → (∀ c ∈ cs, c.«to» = some a) → commonTo cs = a) ∧
    (∀ c, c ∈ cs → c.«to» = none → commonTo cs = emptyAddress) ∧
    (∀ c1 c2, c1 ∈ cs → c2 ∈ cs → c1.«to» ≠ c2.«to» → commonTo cs = emptyAddress) := by
  refine ⟨?_, ?_, ?_, ?_⟩
  · intro h; subst h; rfl
  · intro a hne hall
    match cs, hne with
    | d :: rest, _ =>
      have hd : d.«to» = some a := hall d (List.mem_cons_self d rest)
      simp only [commonTo, hd]
      exact commonToLoop_all a rest fun c hc => hall c (List.mem_cons_of_mem d hc)
  · intro c hc hcn
    match cs, hc with
    | d :: rest, hc =>
      rcases List.mem_cons.mp hc with hcd | hcr
      · subst hcd
        simp [commonTo, hcn]
      · match hdt : d.«to» with
        | none => simp [commonTo, hdt]
        | some t =>
          simp only [commonTo, hdt]
          exact commonToLoop_mismatch t rest c hcr (by rw [hcn]; exact fun h => by cases h)
  · intro c1 c2 hc1 hc2 hne
    match cs, hc1, hc2 with
    | d :: rest, hc1, hc2 =>
      match hdt : d.«to» with
      | none => simp [commonTo, hdt]
      | some t =>
        simp only [commonTo, hdt]
        by_cases h1 : c1.«to» = some t
        · have h2 : c2.«to» ≠ some t := fun h2e => hne (by rw [h1, h2e])
          have hc2r : c2 ∈ rest := by
            rcases List.mem_cons.mp hc2 with hcd | hcr
            · exact absurd (by rw [hcd]; exact hdt) h2
            · exact hcr
          exact commonToLoop_mismatch t rest c2 hc2r h2
        · have hc1r : c1 ∈ rest := by
            rcases List.mem_cons.mp hc1 with hcd | hcr
            · exact absurd (by rw [hcd]; exact hdt) h1
            · exact hcr
          exact commonToLoop_mismatch t rest c1 hc1r h1

theorem C7_common_recipient_witness :
    commonTo [⟨some 3, 0, []⟩, ⟨some 3, 1, []⟩] = 3 ∧
    commonTo [] = emptyAddress ∧
    commonTo [⟨some 3, 0, []⟩, ⟨none, 0, []⟩] = emptyAddress ∧
    commonTo [⟨some 3, 0, []⟩, ⟨some 4, 0, []⟩] = emptyAddress :=
  ⟨(C7_common_recipient [⟨some 3, 0, []⟩, ⟨some 3, 1, []⟩]).2.1 3 (by decide)
      (by intro c hc; fin_cases hc <;> rfl),
   (C7_common_recipient []).1 rfl,
   (C7_common_recipient [⟨some 3, 0, []⟩, ⟨none, 0, []⟩]).2.2.1 ⟨none, 0, []⟩
      (by decide) rfl,
   (C7_common_recipient [⟨some 3, 0, []⟩, ⟨some 4, 0, []⟩]).2.2.2 ⟨some 3, 0, []⟩
      ⟨some 4, 0, []⟩ (by decide) (by decide) (by decide)⟩

/-- C8: each failed pre-execution check makes ExecuteTransaction return its
    own distinct error value together with the untouched input state; the
    error constructors are pairwise distinct and distinct from any ok
    result, and no receipt or output list is produced. -/
theorem C8_preexec_rejection (rt : Runtime) (st : WorldState) (tx : Transaction) :
    (tx.signer = none →
      ExecuteTransaction rt st tx = (.error .invalidSignature, st)) ∧
    (∀ origin, tx.signer = some origin → tx.intrinsicGas = none →
      ExecuteTransaction rt st tx = (.error .malformedTransaction, st)) ∧
    (∀ origin ig, tx.signer = some origin → tx.intrinsicGas = some ig → tx.gas < ig →
      ExecuteTransaction rt st tx = (.error .insufficientGas, st)) ∧
    (∀ origin ig, tx.signer = some origin → tx.intrinsicGas = some ig → ig ≤ tx.gas →
      Energy.consume rt.pickPayer st rt.blockTime origin (commonTo tx.clauses)
        (tx.gas * tx.gasPrice) = none →
      ExecuteTransaction rt st tx = (.error .insufficientEnergy, st)) := by
  refine ⟨?_, ?_, ?_, ?_⟩
  · intro h
    simp [ExecuteTransaction, h]
  · intro origin h1 h2
    simp [ExecuteTransaction, h1, h2]
  · intro origin ig h1 h2 h3
    simp [ExecuteTransaction, h1, h2, h3]
  · intro origin ig h1 h2 h3 h4
    unfold ExecuteTransaction
    simp only [h1, h2, h4]
    rw [if_neg (Nat.not_lt.mpr h3)]

theorem C8_preexec_rejection_witness :
    ExecuteTransaction rtOk st0Ex { txEx with signer := none } =
      (.error .invalidSignature, st0Ex) ∧
    ExecuteTransaction rtOk st0Ex { txEx with intrinsicGas := none } =
      (.error .malformedTransaction, st0Ex) ∧
    ExecuteTransaction rtOk st0Ex { txEx with gas := 9 } =
      (.error .insufficientGas, st0Ex) ∧
    ExecuteTransaction rtOk ⟨[(5, 1)], []⟩ txEx =
      (.error .insufficientEnergy, ⟨[(5, 1)], []⟩) :=
  ⟨(C8_preexec_rejection rtOk st0Ex { txEx with signer := none }).1 rfl,
   (C8_preexec_rejection rtOk st0Ex { txEx with intrinsicGas := none }).2.1 5 rfl rfl,
   (C8_preexec_rejection rtOk st0Ex { txEx with gas := 9 }).2.2.1 5 10 rfl rfl (by decide),
   (C8_preexec_rejection rtOk ⟨[(5, 1)], []⟩ txEx).2.2.2 5 10 rfl rfl (by decide)
     (by decide)⟩

theorem hexDigit_val : ∀ n, n < 16 → hexDigitVal (hexDigit n) = n := by decide

theorem decode_encBody : ∀ bs : List Byte, decodeBody (encBody bs) = bs.map Fin.val := by
  intro bs
  induction bs with
  | nil => rfl
  | cons b rest ih =>
    have hb := b.isLt
    have h1 : b.val / 16 < 16 := by omega
    have h2 : b.val % 16 < 16 := by omega
    simp only [encBody, decodeBody, List.map]
    rw [hexDigit_val _ h1, hexDigit_val _ h2, ih]
    congr 1
    omega

theorem map_val_inj : ∀ a b : List Byte, a.map Fin.val = b.map Fin.val → a = b := by
  intro a
  induction a with
  | nil =>
    intro b h
    cases b with
    | nil => rfl
    | cons y ys => simp at h
  | cons x xs ih =>
    intro b h
    cases b with
    | nil => simp at h
    | cons y ys =>
      simp only [List.map, List.cons.injEq] at h
      obtain ⟨h1, h2⟩ := h
      rw [show x = y from Fin.val_injective h1, ih ys h2]

theorem hexEncode_injective : Function.Injective hexEncode := by
  intro a b h
  simp only [hexEncode, List.cons.injEq, true_and] at h
  have hd := congrArg decodeBody h
  rw [decode_encBody, decode_encBody] at hd
  exact map_val_inj a b hd

theorem convOutputs_map_some : ∀ outs : List TxOutput,
    convOutputs (outs.map some) = some (outs.map convOutput) := by
  intro outs
  induction outs with
  | nil => rfl
  | cons o rest ih => simp [convOutputs, ih]

/-- C9: ConvertReceipt preserves the gasUsed, gasPayer and reverted fields,
    maps outputs and the logs of each output 1:1 in order, and copies per log
    address and topic list; the data bytes are carried through the
    injective (hence lossless) hex encoding of hexutil.Encode, with no
    other reinterpretation and no hashing. -/
theorem C9_receipt_fidelity (r : Receipt) (outs : List TxOutput)
    (h : r.outputs = some (outs.map some)) :
    ConvertReceipt r = some
      { gasUsed := r.gasUsed, gasPayer := r.gasPayer, reverted := r.reverted
        outputs := outs.map fun o =>
          { logs := o.logs.map fun lg =>
              { address := lg.address, topics := lg.topics,
                data := hexEncode lg.data } } } ∧
    Function.Injective hexEncode := by
  refine ⟨?_, hexEncode_injective⟩
  unfold ConvertReceipt
  rw [h]
  simp [convOutputs_map_some, convOutput, convLog]

theorem C9_receipt_fidelity_witness :
    ConvertReceipt
        ({ gasUsed := 4, gasPayer := 2, reverted := false,
           outputs := some ([(⟨[⟨7, [9, 8], [171, 0]⟩]⟩ : TxOutput)].map some) } :
          Receipt) =
      some
        { gasUsed := 4, gasPayer := 2, reverted := false,
          outputs := [(⟨[⟨7, [9, 8], [171, 0]⟩]⟩ : TxOutput)].map fun o =>
            { logs := o.logs.map fun lg =>
                { address := lg.address, topics := lg.topics,
                  data := hexEncode lg.data } } } ∧
    Function.Injective hexEncode :=
  C9_receipt_fidelity _ _ rfl

/-- C10: whenever ExecuteTransaction returns without error, the raw output
    list has one entry per clause; some prefix of n entries is non-nil (the
    executed clauses), the remaining entries are nil, and when not all
    clauses were executed the last executed clause is exactly one that
    reported an execution error. -/
theorem C10_output_shape (rt : Runtime) (st : WorldState) (tx : Transaction)
    (receipt : Receipt) (vmOuts : List (Option VMOutput)) (stf : WorldState)
    (h : ExecuteTransaction rt st tx = (.ok (receipt, vmOuts), stf)) :
    vmOuts.length = tx.clauses.length ∧
    ∃ n, n ≤ tx.clauses.length ∧
      (∀ j, j < n → ∃ vo, vmOuts.get? j = some (some vo)) ∧
      (∀ j, n ≤ j → j < tx.clauses.length → vmOuts.get? j = some none) ∧
      (n < tx.clauses.length →
        0 < n ∧ ∃ vo, vmOuts.get? (n - 1) = some (some vo) ∧ vo.vmErr.isSome) := by
  rcases hsig : tx.signer with _ | origin
  · simp only [ExecuteTransaction, hsig] at h
    exact absurd h (by simp)
  rcases hig : tx.intrinsicGas with _ | ig
  · simp only [ExecuteTransaction, hsig, hig] at h
    exact absurd h (by simp)
  by_cases hgas : ig > tx.gas
  · simp only [ExecuteTransaction, hsig, hig, if_pos hgas] at h
    exact absurd h (by simp)
  rcases hcons : Energy.consume rt.pickPayer st rt.blockTime origin (commonTo tx.clauses)
      (tx.gas * tx.gasPrice) with _ | ⟨payer, st1⟩
  · simp only [ExecuteTransaction, hsig, hig, if_neg hgas, hcons] at h
    exact absurd h (by simp)
  · simp only [ExecuteTransaction, hsig, hig, if_neg hgas, hcons, Prod.mk.injEq,
      Except.ok.injEq] at h
    obtain ⟨⟨hrec, hvm⟩, hstf⟩ := h
    subst hvm
    refine ⟨execLoop_vmOuts_length rt origin tx.gasPrice tx.id (newCheckpoint st1)
      tx.clauses 0 (tx.gas - ig) st1, ?_⟩
    rcases hfa : (execLoop rt origin tx.gasPrice tx.id (newCheckpoint st1) 0 tx.clauses
        (tx.gas - ig) st1).failedAt with _ | k
    · refine ⟨tx.clauses.length, Nat.le_refl _, ?_, ?_, ?_⟩
      · intro j hj
        exact execLoop_success_spec rt origin tx.gasPrice tx.id (newCheckpoint st1)
          tx.clauses 0 (tx.gas - ig) st1 hfa j hj
      · intro j hj hjl
        omega
      · intro hlt
        omega
    · obtain ⟨_, _, hlen, hpre, hat, hsuf⟩ := execLoop_fail_spec rt origin tx.gasPrice
        tx.id (newCheckpoint st1) tx.clauses 0 (tx.gas - ig) st1 k hfa
      refine ⟨k + 1, by omega, ?_, ?_, ?_⟩
      · intro j hj
        by_cases hjk : j < k
        · exact hpre j (by omega)
        · have : j = k := by omega
          subst this
          obtain ⟨vo, hvo, _⟩ := hat
          exact ⟨vo, by simpa using hvo⟩
      · intro j hj hjl
        exact hsuf j (by omega) hjl
      · intro _
        refine ⟨Nat.succ_pos k, ?_⟩
        obtain ⟨vo, hvo, herr⟩ := hat
        exact ⟨vo, by simpa using hvo, herr⟩

theorem C10_output_shape_witness :
    ([some ⟨19, 0, [], some ()⟩] : List (Option VMOutput)).length =
      txEx.clauses.length ∧
    ∃ n, n ≤ txEx.clauses.length ∧
      (∀ j, j < n →
        ∃ vo, ([some ⟨19, 0, [], some ()⟩] : List (Option VMOutput)).get? j =
          some (some vo)) ∧
      (∀ j, n ≤ j → j < txEx.clauses.length →
        ([some ⟨19, 0, [], some ()⟩] : List (Option VMOutput)).get? j = some none) ∧
      (n < txEx.clauses.length →
        0 < n ∧ ∃ vo, ([some ⟨19, 0, [], some ()⟩] : List (Option VMOutput)).get? (n - 1) =
          some (some vo) ∧ vo.vmErr.isSome) :=
  C10_output_shape rtFail st0Ex txEx
    { gasUsed := 11, gasPayer := 0, reverted := false, outputs := none }
    [some ⟨19, 0, [], some ()⟩] ⟨[(5, 978)], []⟩ rfl
